import Mathlib

/-!
Shallow embedding of `src/elo.py` (class `Elo`): an in-memory Elo rating
store over an insertion-ordered association list (mirroring a Python dict),
with ratings idealised as real numbers.  Python `KeyError` on a missing
dict key is modelled by `Option`; `print`-based warnings are modelled by a
`Diag` value returned alongside the new state.
-/

namespace EloPy

/-- Diagnostics the Python code reports via `print` warnings. -/
inductive Diag where
  | DuplicatePlayer (name : String)
  | InvalidScore (player1 player2 : String) (score1 : ℝ)

/-- State of the `Elo` class: the `players` dict (insertion-ordered
association list, keys unique), configuration, and the match list. -/
structure Elo where
  players : List (String × ℝ)
  initial_rating : ℝ
  k_factor : ℝ
  «matches» : List (String × String × ℝ)

/-- Lookup in a Python dict modelled as an association list
(`self.players[name]`); `none` models `KeyError`. -/
def dictLookup : List (String × ℝ) → String → Option ℝ
  | [], _ => none
  | (k', v) :: rest, k => if k' = k then some v else dictLookup rest k

/-- Assignment `d[k] = v` on a Python dict: replaces the value in place if
the key exists (keeping insertion order), otherwise appends at the end. -/
def dictInsert : List (String × ℝ) → String → ℝ → List (String × ℝ)
  | [], k, v => [(k, v)]
  | (k', v') :: rest, k, v =>
      if k' = k then (k, v) :: rest else (k', v') :: dictInsert rest k v

/-- The dict comprehension in `Elo.__init__`:
`{player_name: initial_rating for player_name in players}`. -/
def initPlayers (names : List String) (initial_rating : ℝ) : List (String × ℝ) :=
  names.foldl (fun m n => dictInsert m n initial_rating) []

/-- `Elo.__init__(players, initial_rating, k_factor)`. -/
def Elo.init (names : List String) (initial_rating k_factor : ℝ) : Elo :=
  { players := initPlayers names initial_rating
    initial_rating := initial_rating
    k_factor := k_factor
    «matches» := [] }

/-- `Elo.add_player`: warn and do nothing if the name exists, otherwise
insert the name with the initial rating. -/
def add_player (e : Elo) (name : String) : Elo × Option Diag :=
  if (dictLookup e.players name).isSome then
    (e, some (Diag.DuplicatePlayer name))
  else
    ({ e with players := e.players ++ [(name, e.initial_rating)] }, none)

/-- `Elo._expected_score`: `1 / (1 + 10 ** ((rating2 - rating1) / 400))`,
reading both current ratings from the dict (`none` models `KeyError`). -/
noncomputable def _expected_score (e : Elo) (player1 player2 : String) : Option ℝ :=
  match dictLookup e.players player1, dictLookup e.players player2 with
  | some rating1, some rating2 =>
      some (1 / (1 + (10 : ℝ) ^ ((rating2 - rating1) / 400)))
  | _, _ => none

/-- `Elo._update_rating`: sets `players[player1]` to
`rating1 + k_factor * (score1 - expected1)`, where `expected1` and
`rating1` are read from the current dict. -/
noncomputable def _update_rating (e : Elo) (player1 player2 : String) (score1 : ℝ) :
    Option Elo :=
  match _expected_score e player1 player2 with
  | none => none
  | some expected1 =>
    match dictLookup e.players player1 with
    | none => none
    | some rating1 =>
        some { e with
                players := dictInsert e.players player1
                  (rating1 + e.k_factor * (score1 - expected1)) }

/-- `Elo.add_match_result`: validate the score (early return with a warning
otherwise), auto-register missing players, append the match, then update
player1's rating and afterwards player2's rating — the second update
re-reads the dict, hence sees player1's already-updated rating. -/
noncomputable def add_match_result (e : Elo) (player1 player2 : String) (score1 : ℝ) :
    Option (Elo × Option Diag) :=
  if ¬ (score1 = 1 ∨ score1 = 1/2 ∨ score1 = 0) then
    some (e, some (Diag.InvalidScore player1 player2 score1))
  else
    let e1 := if (dictLookup e.players player1).isSome then e else (add_player e player1).1
    let e2 := if (dictLookup e1.players player2).isSome then e1 else (add_player e1 player2).1
    let e3 := { e2 with «matches» := e2.«matches» ++ [(player1, player2, score1)] }
    match _update_rating e3 player1 player2 score1 with
    | none => none
    | some e4 =>
      match _update_rating e4 player2 player1 (1 - score1) with
      | none => none
      | some e5 => some (e5, none)

/-- `Elo.print_rating`: sorts the `(player, rating)` pairs by rating in
descending order and prints them; it returns the state unchanged, paired
with the sorted listing it prints. -/
noncomputable def print_rating (e : Elo) : Elo × List (String × ℝ) :=
  (e, List.insertionSort (fun a b => b.2 ≤ a.2) e.players)

/-! ### Association-list lemmas -/

lemma dictLookup_append_of_isSome {m : List (String × ℝ)} {k : String}
    (l : List (String × ℝ)) (h : (dictLookup m k).isSome) :
    dictLookup (m ++ l) k = dictLookup m k := by
  induction m with
  | nil => simp [dictLookup] at h
  | cons a rest ih =>
      obtain ⟨k', v⟩ := a
      by_cases hk : k' = k <;> simp [dictLookup, hk] at h ⊢
      exact ih h

lemma dictLookup_append_of_none {m : List (String × ℝ)} {k : String}
    (l : List (String × ℝ)) (h : dictLookup m k = none) :
    dictLookup (m ++ l) k = dictLookup l k := by
  induction m with
  | nil => simp
  | cons a rest ih =>
      obtain ⟨k', v⟩ := a
      by_cases hk : k' = k <;> simp [dictLookup, hk] at h ⊢
      exact ih h

lemma dictLookup_insert_self (m : List (String × ℝ)) (k : String) (v : ℝ) :
    dictLookup (dictInsert m k v) k = some v := by
  induction m with
  | nil => simp [dictInsert, dictLookup]
  | cons a rest ih =>
      obtain ⟨k', v'⟩ := a
      by_cases hk : k' = k <;> simp [dictInsert, dictLookup, hk, ih]

lemma dictLookup_insert_of_ne {k' k : String} (m : List (String × ℝ)) (v : ℝ)
    (h : k' ≠ k) : dictLookup (dictInsert m k v) k' = dictLookup m k' := by
  induction m with
  | nil => simp [dictInsert, dictLookup, Ne.symm h]
  | cons a rest ih =>
      obtain ⟨k0, v0⟩ := a
      by_cases hk : k0 = k
      · subst hk
        simp [dictInsert, dictLookup, Ne.symm h]
      · simp [dictInsert, dictLookup, hk, ih]

lemma dictLookup_insert_isSome {m : List (String × ℝ)} {k' : String}
    (k : String) (v : ℝ) (h : (dictLookup m k').isSome) :
    (dictLookup (dictInsert m k v) k').isSome := by
  by_cases hk : k' = k
  · subst hk; simp [dictLookup_insert_self]
  · rwa [dictLookup_insert_of_ne m v hk]

lemma dictLookup_insert_eq_of_lookup_eq {m : List (String × ℝ)} {k : String} {v : ℝ}
    (h : dictLookup m k = some v) : dictInsert m k v = m := by
  induction m with
  | nil => simp [dictLookup] at h
  | cons a rest ih =>
      obtain ⟨k', v'⟩ := a
      by_cases hk : k' = k <;> simp [dictLookup, hk] at h <;>
        simp [dictInsert, hk, h, ih]

/-! ### Small facts about `add_player` -/

lemma add_player_matches (e : Elo) (n : String) :
    (add_player e n).1.«matches» = e.«matches» := by
  by_cases h : (dictLookup e.players n).isSome <;> simp [add_player, h]

lemma add_player_lookup_self (e : Elo) (n : String) :
    (dictLookup (add_player e n).1.players n).isSome := by
  cases hl : dictLookup e.players n with
  | some v => simp [add_player, hl]
  | none => simp [add_player, hl, dictLookup_append_of_none _ hl, dictLookup]

lemma add_player_lookup_mono {e : Elo} {k : String} (n : String)
    (h : (dictLookup e.players k).isSome) :
    (dictLookup (add_player e n).1.players k).isSome := by
  cases hl : dictLookup e.players n with
  | some v => simpa [add_player, hl] using h
  | none => simpa [add_player, hl, dictLookup_append_of_isSome _ h] using h

/-- Auto-registration step of `add_match_result`: the registered player is
afterwards present. -/
lemma reg_lookup_self (e : Elo) (n : String) :
    (dictLookup (if (dictLookup e.players n).isSome then e
                 else (add_player e n).1).players n).isSome := by
  by_cases h : (dictLookup e.players n).isSome
  · simp [h]
  · simp [h, add_player_lookup_self]

/-- Auto-registration never drops an existing key. -/
lemma reg_lookup_mono {e : Elo} {k : String} (n : String)
    (h : (dictLookup e.players k).isSome) :
    (dictLookup (if (dictLookup e.players n).isSome then e
                 else (add_player e n).1).players k).isSome := by
  by_cases hn : (dictLookup e.players n).isSome
  · simpa [hn] using h
  · simp [hn, add_player_lookup_mono n h]

/-- Auto-registration does not touch the match history. -/
lemma reg_matches (e : Elo) (n : String) :
    (if (dictLookup e.players n).isSome then e
     else (add_player e n).1).«matches» = e.«matches» := by
  by_cases hn : (dictLookup e.players n).isSome <;>
    simp [hn, add_player_matches]

lemma _expected_score_some {e : Elo} {p1 p2 : String} {r1 r2 : ℝ}
    (h1 : dictLookup e.players p1 = some r1)
    (h2 : dictLookup e.players p2 = some r2) :
    _expected_score e p1 p2 = some (1 / (1 + (10 : ℝ) ^ ((r2 - r1) / 400))) := by
  simp [_expected_score, h1, h2]

/-- When both participants are present, `_update_rating` succeeds, and the
new state differs from the old one only by an insertion at player1's key. -/
lemma _update_rating_some {e : Elo} {p1 p2 : String} (s : ℝ)
    (h1 : (dictLookup e.players p1).isSome)
    (h2 : (dictLookup e.players p2).isSome) :
    ∃ e', _update_rating e p1 p2 s = some e' ∧
      (∃ v, e'.players = dictInsert e.players p1 v) ∧
      e'.«matches» = e.«matches» ∧
      e'.initial_rating = e.initial_rating ∧ e'.k_factor = e.k_factor := by
  obtain ⟨r1, hr1⟩ := Option.isSome_iff_exists.mp h1
  obtain ⟨r2, hr2⟩ := Option.isSome_iff_exists.mp h2
  set v := r1 + e.k_factor * (s - (1 / (1 + (10 : ℝ) ^ ((r2 - r1) / 400)))) with hv
  refine ⟨{ e with players := dictInsert e.players p1 v }, ?_, ⟨v, rfl⟩, rfl, rfl, rfl⟩
  simp [_update_rating, _expected_score_some hr1 hr2, hr1, hv]

/-- Whenever `_update_rating` succeeds, the new state differs from the old
one only by an insertion at player1's key. -/
lemma _update_rating_shape {e e' : Elo} {p1 p2 : String} {s : ℝ}
    (h : _update_rating e p1 p2 s = some e') :
    (∃ v, e'.players = dictInsert e.players p1 v) ∧
    e'.«matches» = e.«matches» ∧
    e'.initial_rating = e.initial_rating ∧ e'.k_factor = e.k_factor := by
  unfold _update_rating at h
  split at h
  · exact absurd h (by simp)
  · split at h
    · exact absurd h (by simp)
    · obtain rfl := Option.some_inj.mp h
      exact ⟨⟨_, rfl⟩, rfl, rfl, rfl⟩

/-- The validation early-exit of `add_match_result`. -/
lemma amr_invalid_eq (e : Elo) (p1 p2 : String) (s : ℝ)
    (hs : ¬ (s = 1 ∨ s = 1/2 ∨ s = 0)) :
    add_match_result e p1 p2 s = some (e, some (Diag.InvalidScore p1 p2 s)) := by
  simp only [add_match_result, if_pos hs]

/-- C2.  An `add_match_result` call with a score outside `{1, 0.5, 0}` only
reports the `InvalidScore` diagnostic: the state — player mapping, match
history, configuration — is returned unchanged and no player is created. -/
theorem invalid_score_no_mutation (e : Elo) (p1 p2 : String) (s : ℝ)
    (hs : ¬ (s = 1 ∨ s = 1/2 ∨ s = 0)) :
    add_match_result e p1 p2 s = some (e, some (Diag.InvalidScore p1 p2 s)) :=
  amr_invalid_eq e p1 p2 s hs

/-- Witness for C2 at the concrete out-of-set score `0.3`. -/
theorem invalid_score_no_mutation_witness :
    add_match_result (Elo.init [] 1500 32) "a" "b" (3/10) =
      some (Elo.init [] 1500 32, some (Diag.InvalidScore "a" "b" (3/10))) :=
  invalid_score_no_mutation (Elo.init [] 1500 32) "a" "b" (3/10) (by norm_num)

/-- C6.  `add_player` is idempotent: a second call on the same name leaves
the state exactly as after the first call; a call on a present name mutates
nothing and reports the `DuplicatePlayer` warning; a call on an absent name
appends exactly one entry holding the initial rating. -/
theorem add_player_idempotent (e : Elo) (n : String) :
    (add_player (add_player e n).1 n).1 = (add_player e n).1 ∧
    ((dictLookup e.players n).isSome →
      add_player e n = (e, some (Diag.DuplicatePlayer n))) ∧
    (dictLookup e.players n = none →
      add_player e n =
        ({ e with players := e.players ++ [(n, e.initial_rating)] }, none)) := by
  refine ⟨?_, fun h => by simp [add_player, h], fun h => by simp [add_player, h]⟩
  have h2 := add_player_lookup_self e n
  generalize hE : (add_player e n).1 = e' at h2 ⊢
  simp [add_player, h2]

/-- Witness for C6: a fresh store, a duplicate registration, and a new
registration, all at concrete inputs. -/
theorem add_player_idempotent_witness :
    (add_player (add_player (Elo.init [] 1500 32) "a").1 "a").1 =
        (add_player (Elo.init [] 1500 32) "a").1 ∧
    add_player (Elo.init ["a"] 1500 32) "a" =
      (Elo.init ["a"] 1500 32, some (Diag.DuplicatePlayer "a")) ∧
    add_player (Elo.init [] 1500 32) "a" =
      ({ Elo.init [] 1500 32 with players := [("a", 1500)] }, none) :=
  ⟨(add_player_idempotent (Elo.init [] 1500 32) "a").1,
   (add_player_idempotent (Elo.init ["a"] 1500 32) "a").2.1 rfl,
   (add_player_idempotent (Elo.init [] 1500 32) "a").2.2 rfl⟩

/-- With a valid score, `add_match_result` always succeeds. -/
lemma amr_isSome_of_valid (e : Elo) (p1 p2 : String) (s : ℝ)
    (hs : s = 1 ∨ s = 1/2 ∨ s = 0) :
    (add_match_result e p1 p2 s).isSome := by
  unfold add_match_result
  rw [if_neg (not_not_intro hs)]
  simp only []
  set E1 := if (dictLookup e.players p1).isSome then e else (add_player e p1).1 with hE1
  set E2 := if (dictLookup E1.players p2).isSome then E1 else (add_player E1 p2).1 with hE2
  have hp1 : (dictLookup E2.players p1).isSome := by
    rw [hE2]; exact reg_lookup_mono p2 (by rw [hE1]; exact reg_lookup_self e p1)
  have hp2 : (dictLookup E2.players p2).isSome := by
    rw [hE2]; exact reg_lookup_self E1 p2
  obtain ⟨e4, h4, ⟨v, hv4⟩, -, -, -⟩ := _update_rating_some
    (e := { E2 with «matches» := E2.«matches» ++ [(p1, p2, s)] }) s hp1 hp2
  dsimp only at hv4
  have h1' : (dictLookup e4.players p2).isSome := by
    rw [hv4]; exact dictLookup_insert_isSome p1 v hp2
  have h2' : (dictLookup e4.players p1).isSome := by
    rw [hv4]; simp [dictLookup_insert_self]
  obtain ⟨e5, h5, -, -, -, -⟩ := _update_rating_some (1 - s) h1' h2'
  simp only [h4, h5, Option.isSome_some]

/-- C5.  With a valid score, the dict lookups inside `_expected_score` and
`_update_rating` cannot raise: auto-registration of both participants runs
before any rating is read, so `add_match_result` never hits the modelled
`KeyError` branch (`none`). -/
theorem recording_lookups_never_fail (e : Elo) (p1 p2 : String) (s : ℝ)
    (hs : s = 1 ∨ s = 1/2 ∨ s = 0) :
    (add_match_result e p1 p2 s).isSome :=
  amr_isSome_of_valid e p1 p2 s hs

/-- Witness for C5 at a fresh store and score 1. -/
theorem recording_lookups_never_fail_witness :
    (add_match_result (Elo.init [] 1500 32) "a" "b" 1).isSome :=
  recording_lookups_never_fail (Elo.init [] 1500 32) "a" "b" 1 (Or.inl rfl)

/-- States reachable through the operations of the `Elo` class:
construction, `add_player`, and `add_match_result` (the latter whenever it
does not raise). -/
inductive Reachable : Elo → Prop where
  | init (names : List String) (initial_rating k_factor : ℝ) :
      Reachable (Elo.init names initial_rating k_factor)
  | addPlayer (e : Elo) (n : String) :
      Reachable e → Reachable (add_player e n).1
  | addMatch (e e' : Elo) (d : Option Diag) (p1 p2 : String) (s : ℝ) :
      Reachable e → add_match_result e p1 p2 s = some (e', d) → Reachable e'

/-- Invariant of C4: every player named in a recorded match is a key of the
rating dict. -/
def matchPlayersRegistered (e : Elo) : Prop :=
  ∀ p1 p2 s, (p1, p2, s) ∈ e.«matches» →
    (dictLookup e.players p1).isSome ∧ (dictLookup e.players p2).isSome

/-- C4.  In every reachable state, every match record references only
registered players: `add_match_result` registers missing participants
before appending the record, and no operation removes a key. -/
theorem history_players_registered {e : Elo} (hr : Reachable e) :
    matchPlayersRegistered e := by
  induction hr with
  | init names ir k =>
      intro q1 q2 t hmem
      simp [Elo.init] at hmem
  | addPlayer e n _ ih =>
      intro q1 q2 t hmem
      rw [add_player_matches] at hmem
      obtain ⟨h1, h2⟩ := ih q1 q2 t hmem
      exact ⟨add_player_lookup_mono n h1, add_player_lookup_mono n h2⟩
  | addMatch e e' d p1 p2 s _ heq ih =>
      by_cases hs : s = 1 ∨ s = 1/2 ∨ s = 0
      · unfold add_match_result at heq
        rw [if_neg (not_not_intro hs)] at heq
        simp only [] at heq
        set E1 := if (dictLookup e.players p1).isSome then e else (add_player e p1).1 with hE1
        set E2 := if (dictLookup E1.players p2).isSome then E1 else (add_player E1 p2).1 with hE2
        have hp1 : (dictLookup E2.players p1).isSome := by
          rw [hE2]; exact reg_lookup_mono p2 (by rw [hE1]; exact reg_lookup_self e p1)
        have hp2 : (dictLookup E2.players p2).isSome := by
          rw [hE2]; exact reg_lookup_self E1 p2
        have hmono : ∀ k, (dictLookup e.players k).isSome →
            (dictLookup E2.players k).isSome := by
          intro k hk
          rw [hE2]
          exact reg_lookup_mono p2 (by rw [hE1]; exact reg_lookup_mono p1 hk)
        have hmat : E2.«matches» = e.«matches» := by
          rw [hE2, reg_matches, hE1, reg_matches]
        split at heq
        · exact absurd heq (by simp)
        · rename_i e4 h4
          split at heq
          · exact absurd heq (by simp)
          · rename_i e5 h5
            simp only [Option.some.injEq, Prod.mk.injEq] at heq
            obtain ⟨rfl, -⟩ := heq
            obtain ⟨⟨v, hv4⟩, hm4, -, -⟩ := _update_rating_shape h4
            obtain ⟨⟨w, hv5⟩, hm5, -, -⟩ := _update_rating_shape h5
            dsimp only at hv4 hm4
            intro q1 q2 t hmem
            rw [hm5, hm4] at hmem
            simp only [List.mem_append, List.mem_singleton] at hmem
            rw [hv5, hv4]
            rcases hmem with hold | hnew
            · rw [hmat] at hold
              obtain ⟨h1, h2⟩ := ih q1 q2 t hold
              exact ⟨dictLookup_insert_isSome p2 w (dictLookup_insert_isSome p1 v (hmono q1 h1)),
                     dictLookup_insert_isSome p2 w (dictLookup_insert_isSome p1 v (hmono q2 h2))⟩
            · obtain ⟨rfl, rfl, rfl⟩ := Prod.mk.injEq .. ▸ hnew
              refine ⟨dictLookup_insert_isSome p2 w ?_, ?_⟩
              · simp [dictLookup_insert_self]
              · simp [dictLookup_insert_self]
      · rw [amr_invalid_eq e p1 p2 s hs] at heq
        simp only [Option.some.injEq, Prod.mk.injEq] at heq
        obtain ⟨rfl, -⟩ := heq
        exact ih

/-! ### Real-arithmetic facts about the expected-score formula -/

/-- The two expected scores of a pair always sum to one. -/
lemma expected_sum_key (d : ℝ) :
    1 / (1 + (10 : ℝ) ^ d) + 1 / (1 + (10 : ℝ) ^ (-d)) = 1 := by
  have hp : (0 : ℝ) < (10 : ℝ) ^ d := Real.rpow_pos_of_pos (by norm_num) d
  rw [Real.rpow_neg (by norm_num)]
  have ha : (10 : ℝ) ^ d ≠ 0 := ne_of_gt hp
  have h1 : (1 : ℝ) + (10 : ℝ) ^ d ≠ 0 := by positivity
  field_simp
  ring

/-- C3.  For two registered players the expected scores in the two
directions sum to exactly one; `_expected_score` is a pure read (it
returns a value and the state is untouched by construction). -/
theorem expected_scores_sum_to_one (e : Elo) (a b : String) (r1 r2 : ℝ)
    (h1 : dictLookup e.players a = some r1)
    (h2 : dictLookup e.players b = some r2) :
    (_expected_score e a b).bind
      (fun x => (_expected_score e b a).map (fun y => x + y)) = some 1 := by
  rw [_expected_score_some h1 h2, _expected_score_some h2 h1]
  show some _ = some 1
  rw [show (r1 - r2) / 400 = -((r2 - r1) / 400) by ring]
  exact congrArg some (expected_sum_key _)

/-- Witness for C3 at two concretely registered players. -/
theorem expected_scores_sum_to_one_witness :
    (_expected_score (Elo.init ["a", "b"] 1500 32) "a" "b").bind
      (fun x => (_expected_score (Elo.init ["a", "b"] 1500 32) "b" "a").map
        (fun y => x + y)) = some 1 :=
  expected_scores_sum_to_one (Elo.init ["a", "b"] 1500 32) "a" "b" 1500 1500 rfl rfl

/-- A draw between two players holding the same rating writes back exactly
the old rating (the dict is unchanged). -/
lemma _update_rating_draw_noop {E : Elo} {p1 p2 : String} {r : ℝ} (s : ℝ)
    (hs : s = 1/2)
    (h1 : dictLookup E.players p1 = some r)
    (h2 : dictLookup E.players p2 = some r) :
    _update_rating E p1 p2 s = some E := by
  subst hs
  unfold _update_rating
  rw [_expected_score_some h1 h2, h1]
  norm_num [sub_self, Real.rpow_zero, dictLookup_insert_eq_of_lookup_eq h1]

/-- C7.  Recording a draw (score 0.5) between two players whose current
ratings are equal succeeds, reports nothing, and leaves the whole player
mapping — in particular both ratings — unchanged. -/
theorem draw_at_equal_ratings_fixed_point (e : Elo) (p1 p2 : String) (r : ℝ)
    (h1 : dictLookup e.players p1 = some r)
    (h2 : dictLookup e.players p2 = some r) :
    (add_match_result e p1 p2 (1/2)).map (fun x => (x.1.players, x.2)) =
      some (e.players, none) := by
  unfold add_match_result
  rw [if_neg (by norm_num)]
  simp only [h1, h2, Option.isSome_some, if_true]
  have h1' : dictLookup ({ e with «matches» := e.«matches» ++ [(p1, p2, 1/2)] } : Elo).players p1 =
      some r := h1
  have h2' : dictLookup ({ e with «matches» := e.«matches» ++ [(p1, p2, 1/2)] } : Elo).players p2 =
      some r := h2
  simp only [_update_rating_draw_noop (1/2) rfl h1' h2',
             _update_rating_draw_noop (1 - 1/2) (by norm_num) h2' h1']
  rfl

/-- Witness for C7: a draw between two fresh equal-rated players. -/
theorem draw_at_equal_ratings_fixed_point_witness :
    (add_match_result (Elo.init ["a", "b"] 1500 32) "a" "b" (1/2)).map
        (fun x => (x.1.players, x.2)) =
      some ((Elo.init ["a", "b"] 1500 32).players, none) :=
  draw_at_equal_ratings_fixed_point (Elo.init ["a", "b"] 1500 32) "a" "b" 1500 rfl rfl

/-! ### Reporting -/

instance : IsTotal (String × ℝ) (fun a b => b.2 ≤ a.2) :=
  ⟨fun a b => le_total b.2 a.2⟩

instance : IsTrans (String × ℝ) (fun a b => b.2 ≤ a.2) :=
  ⟨fun _ _ _ h1 h2 => le_trans h2 h1⟩

/-- C8.  `print_rating` leaves the store untouched and prints the pairs of
all registered players, sorted by rating in descending order. -/
theorem ranked_snapshot_sorted_and_pure (e : Elo) :
    (print_rating e).1 = e ∧
    List.Perm (print_rating e).2 e.players ∧
    List.Sorted (fun a b => b.2 ≤ a.2) (print_rating e).2 :=
  ⟨rfl, List.perm_insertionSort _ _, List.sorted_insertionSort _ _⟩

/-! ### Concrete evaluations of `add_match_result` -/

/-- Recording a draw between two fresh players evaluates exactly: both
participants end at the initial rating. -/
lemma draw_eval :
    add_match_result (Elo.init [] 1500 32) "a" "b" (1/2) =
      some (⟨[("a", 1500), ("b", 1500)], 1500, 32, [("a", "b", 1/2)]⟩, none) := by
  norm_num [add_match_result, add_player, _update_rating, _expected_score, Elo.init,
    initPlayers, dictLookup, dictInsert, Real.rpow_zero,
    (show ("a" : String) ≠ "b" by decide)]

/-- Witness for C4: a concrete reachable state holding one match record
whose two players are both registered. -/
theorem history_players_registered_witness :
    (dictLookup (⟨[("a", 1500), ("b", 1500)], 1500, 32,
        [("a", "b", (1/2 : ℝ))]⟩ : Elo).players "a").isSome ∧
    (dictLookup (⟨[("a", 1500), ("b", 1500)], 1500, 32,
        [("a", "b", (1/2 : ℝ))]⟩ : Elo).players "b").isSome :=
  history_players_registered
    (Reachable.addMatch (Elo.init [] 1500 32) _ none "a" "b" (1/2)
      (Reachable.init [] 1500 32) draw_eval) "a" "b" (1/2) (by simp)

/-- Recording a win between two fresh players evaluates exactly: player1
moves to 1516, but player2's update re-reads player1's already-updated
rating, yielding `1500 - 32 / (1 + 10 ^ (1/25))` rather than 1484. -/
lemma winner_eval :
    add_match_result (Elo.init [] 1500 32) "A" "B" 1 =
      some (⟨[("A", 1516), ("B", 1500 + -(32 * (1 + (10 : ℝ) ^ ((1 : ℝ)/25))⁻¹))],
             1500, 32, [("A", "B", 1)]⟩, none) := by
  norm_num [add_match_result, add_player, _update_rating, _expected_score, Elo.init,
    initPlayers, dictLookup, dictInsert, Real.rpow_zero,
    (show ("A" : String) ≠ "B" by decide)]

/-- C1.  On a fresh store with initial rating 1500 and k-factor 32,
`add_match_result("A", "B", 1)` leaves player A at 1516 as the closed form
predicts, but player B does NOT end at 1484: the code computes B's
expected score from A's already-mutated rating instead of the pre-match
snapshot. -/
theorem post_update_expected_score_bug :
    ((add_match_result (Elo.init [] 1500 32) "A" "B" 1).bind
        (fun x => dictLookup x.1.players "A")) = some 1516 ∧
    ((add_match_result (Elo.init [] 1500 32) "A" "B" 1).bind
        (fun x => dictLookup x.1.players "B")) ≠ some 1484 := by
  have hne : ("A" : String) ≠ "B" := by decide
  rw [winner_eval]
  constructor
  · simp [dictLookup]
  · simp only [Option.bind_some, Option.some_bind, ne_eq, Option.some.injEq]
    simp only [dictLookup, if_neg hne]
    intro h
    simp only [if_true, Option.some.injEq] at h
    have ht : (1 : ℝ) < (10 : ℝ) ^ ((1 : ℝ)/25) :=
      (Real.one_lt_rpow_iff_of_pos (by norm_num)).mpr
        (Or.inl ⟨by norm_num, by norm_num⟩)
    have hinv : ((1 : ℝ) + (10 : ℝ) ^ ((1 : ℝ)/25))⁻¹ < 2⁻¹ :=
      inv_strictAnti₀ (by norm_num) (by linarith)
    norm_num at hinv
    linarith

/-- C10.  The expected score of two registered players lies strictly
between 0 and 1, so a single `_update_rating` with a legal score moves the
updated player's rating by strictly less than the k-factor. -/
theorem expected_score_strictly_between (e e' : Elo) (p1 p2 : String)
    (s x r r' : ℝ)
    (hk : 0 < e.k_factor) (hs : s = 0 ∨ s = 1/2 ∨ s = 1)
    (hx : _expected_score e p1 p2 = some x)
    (hu : _update_rating e p1 p2 s = some e')
    (hr : dictLookup e.players p1 = some r)
    (hr' : dictLookup e'.players p1 = some r') :
    (0 < x ∧ x < 1) ∧ |r' - r| < e.k_factor := by
  cases hl2 : dictLookup e.players p2 with
  | none =>
      unfold _expected_score at hx
      rw [hr, hl2] at hx
      exact absurd hx (by simp)
  | some r2 =>
      rw [_expected_score_some hr hl2] at hx
      obtain rfl := Option.some_inj.mp hx
      unfold _update_rating at hu
      rw [_expected_score_some hr hl2, hr] at hu
      obtain rfl := (Option.some_inj.mp hu).symm
      dsimp only at hr'
      rw [dictLookup_insert_self] at hr'
      obtain rfl := Option.some_inj.mp hr'
      set t := (10 : ℝ) ^ ((r2 - r) / 400) with hT
      have hp : (0 : ℝ) < t := by rw [hT]; exact Real.rpow_pos_of_pos (by norm_num) _
      have hx0 : 0 < 1 / (1 + t) := by positivity
      have hx1 : 1 / (1 + t) < 1 := by
        rw [div_lt_one (by linarith)]
        linarith
      refine ⟨⟨hx0, hx1⟩, ?_⟩
      have harith : r + e.k_factor * (s - 1 / (1 + t)) - r =
          e.k_factor * (s - 1 / (1 + t)) := by ring
      rw [harith, abs_mul, abs_of_pos hk]
      refine (mul_lt_iff_lt_one_right hk).mpr ?_
      rw [abs_lt]
      rcases hs with rfl | rfl | rfl
      · exact ⟨by linarith, by linarith⟩
      · exact ⟨by linarith, by linarith⟩
      · exact ⟨by linarith, by linarith⟩

/-- Witness for C10: a win between two fresh equal-rated players. -/
theorem expected_score_strictly_between_witness :
    ((0 : ℝ) < 1 / (1 + (10 : ℝ) ^ (((1500 : ℝ) - 1500) / 400)) ∧
      1 / (1 + (10 : ℝ) ^ (((1500 : ℝ) - 1500) / 400)) < 1) ∧
    |(1500 + 32 * (1 - 1 / (1 + (10 : ℝ) ^ (((1500 : ℝ) - 1500) / 400)))) - 1500| <
      (32 : ℝ) :=
  expected_score_strictly_between (Elo.init ["a", "b"] 1500 32)
    ⟨[("a", 1500 + 32 * (1 - 1 / (1 + (10 : ℝ) ^ (((1500 : ℝ) - 1500) / 400)))),
      ("b", 1500)], 1500, 32, []⟩
    "a" "b" 1 (1 / (1 + (10 : ℝ) ^ (((1500 : ℝ) - 1500) / 400))) 1500
    (1500 + 32 * (1 - 1 / (1 + (10 : ℝ) ^ (((1500 : ℝ) - 1500) / 400))))
    (by show (0 : ℝ) < 32; norm_num) (Or.inr (Or.inr rfl)) rfl rfl rfl rfl

/-- With a valid score, the recorded match is appended at the end of the
history and nothing else is appended. -/
lemma amr_matches_append {e e' : Elo} {d : Option Diag} {p1 p2 : String} {s : ℝ}
    (hs : s = 1 ∨ s = 1/2 ∨ s = 0)
    (h : add_match_result e p1 p2 s = some (e', d)) :
    e'.«matches» = e.«matches» ++ [(p1, p2, s)] := by
  unfold add_match_result at h
  rw [if_neg (not_not_intro hs)] at h
  simp only [] at h
  set E1 := if (dictLookup e.players p1).isSome then e else (add_player e p1).1 with hE1
  set E2 := if (dictLookup E1.players p2).isSome then E1 else (add_player E1 p2).1 with hE2
  have hmat : E2.«matches» = e.«matches» := by
    rw [hE2, reg_matches, hE1, reg_matches]
  split at h
  · exact absurd h (by simp)
  · rename_i e4 h4
    split at h
    · exact absurd h (by simp)
    · rename_i e5 h5
      simp only [Option.some.injEq, Prod.mk.injEq] at h
      obtain ⟨rfl, -⟩ := h
      obtain ⟨-, hm4, -, -⟩ := _update_rating_shape h4
      obtain ⟨-, hm5, -, -⟩ := _update_rating_shape h5
      dsimp only at hm4
      rw [hm5, hm4, hmat]

/-! ### Ingestion from a text source (`from_txt`) -/

/-- Python `line.strip().split()`: split on runs of whitespace, dropping
empty tokens; `tok` carries the characters of the current token in
reverse. -/
def splitWSGo : List Char → List Char → List String
  | tok, [] => if tok = [] then [] else [String.mk tok.reverse]
  | tok, c :: cs =>
      if c.isWhitespace then
        if tok = [] then splitWSGo [] cs
        else String.mk tok.reverse :: splitWSGo [] cs
      else splitWSGo (c :: tok) cs

/-- The field list of one line of the match file. -/
def splitFields (line : String) : List String :=
  splitWSGo [] line.data

/-- Splits a character list at the first dot, if any. -/
def breakDot : List Char → List Char × Option (List Char)
  | [] => ([], none)
  | c :: cs =>
      if c = '.' then ([], some cs)
      else
        let r := breakDot cs
        (c :: r.1, r.2)

/-- A nonempty all-digit character list read as a natural number. -/
def decDigitsList (cs : List Char) : Option ℕ :=
  if cs ≠ [] ∧ cs.all Char.isDigit then
    some (cs.foldl (fun n c => 10 * n + (c.toNat - 48)) 0)
  else none

/-- Modelled from the spec: the score field is converted by Python
`float(...)`, restricted here to the plain decimal literals (optional
minus sign, integer digits, optional single fraction part) that the
whitespace-delimited match format uses; `none` models `ValueError`. -/
noncomputable def parseFloat (s : String) : Option ℝ :=
  let p : ℝ × List Char :=
    match s.data with
    | '-' :: rest => (-1, rest)
    | cs => (1, cs)
  match breakDot p.2 with
  | (ip, none) => (decDigitsList ip).map (fun n => p.1 * n)
  | (ip, some fp) =>
      match decDigitsList ip, decDigitsList fp with
      | some n, some m => some (p.1 * ((n : ℝ) + (m : ℝ) / 10 ^ fp.length))
      | _, _ => none

/-- The ingestion loop of `Elo.from_txt` over the lines read from the file
(the file I/O itself stays outside the embedding).  The single `try`
around the whole `for` loop means the first line whose field access or
float conversion raises ends the loop: the function returns the state
accumulated so far and no later line is processed. -/
noncomputable def from_txt (e : Elo) : List String → Elo
  | [] => e
  | line :: rest =>
      match splitFields line with
      | f0 :: f1 :: f2 :: _ =>
          match parseFloat f2 with
          | some s =>
              match add_match_result e f0 f1 s with
              | some (e', _) => from_txt e' rest
              | none => e
          | none => e
      | _ => e

/-- C9.  The `try` in `from_txt` wraps the whole loop, so the malformed
line `"a b"` (missing score field) aborts ingestion of every later line:
the well-formed `"c d 1"` is not recorded, although the very same line is
ingested when it is not preceded by the malformed one. -/
theorem malformed_line_aborts_remaining_lines :
    from_txt (Elo.init [] 1500 32) ["a b", "c d 1"] = Elo.init [] 1500 32 ∧
    (from_txt (Elo.init [] 1500 32) ["c d 1"]).«matches».map
      (fun m => (m.1, m.2.1)) = [("c", "d")] := by
  constructor
  · rfl
  · have hsplit : splitFields "c d 1" = ["c", "d", "1"] := rfl
    have hparse : parseFloat "1" = some ((1 : ℝ) * ((1 : ℕ) : ℝ)) := rfl
    have hs : ((1 : ℝ) * ((1 : ℕ) : ℝ)) = 1 ∨ ((1 : ℝ) * ((1 : ℕ) : ℝ)) = 1/2 ∨
        ((1 : ℝ) * ((1 : ℕ) : ℝ)) = 0 := by norm_num
    obtain ⟨res, hres⟩ := Option.isSome_iff_exists.mp
      (amr_isSome_of_valid (Elo.init [] 1500 32) "c" "d" _ hs)
    obtain ⟨e', dg⟩ := res
    have hrun : from_txt (Elo.init [] 1500 32) ["c d 1"] = e' := by
      simp only [from_txt, hsplit, hparse, hres]
    rw [hrun, amr_matches_append hs hres]
    rfl

end EloPy
